import Mathlib

/-!
Verification development for the invoice-generation pipeline in `app.py`.

The Python code is shallowly embedded: strings are `List Char`, Python
floats are modelled as exact rationals (binary rounding of IEEE doubles is
not modelled; the non-finite values `nan`/`inf` are represented
explicitly), a pandas row is an association list from column names to cell
values, and fallible operations return `Except PyErr`.  The rendered PDF
is modelled by the record of all dynamic text placed on the page together
with the logo bytes; byte-level serialisation by the external `fpdf`
library is outside the model.
-/

/-- A Python float value: a finite rational, `nan`, or a signed infinity
(`inf true` is negative infinity). -/
inductive PyFloat where
  | fin (q : ℚ)
  | nan
  | inf (neg : Bool)
deriving DecidableEq

/-- A Python value as it can occur in a pandas cell: a string, an int, a
float, or `None`. -/
inductive PyVal where
  | PStr (s : List Char)
  | PInt (n : ℤ)
  | PFloat (f : PyFloat)
  | PNone
deriving DecidableEq

/-- Python exceptions relevant to `app.py`: `KeyError` from a missing
column, `ValueError` and `TypeError` from `float(...)`. -/
inductive PyErr where
  | KeyError (k : List Char)
  | ValueError
  | TypeError
deriving DecidableEq

/-- Equality on `Except` results is decidable when it is on both sides;
used to evaluate the embedded operations on concrete inputs. -/
instance {ε α : Type} [DecidableEq ε] [DecidableEq α] : DecidableEq (Except ε α) :=
  fun x y =>
    match x, y with
    | .ok a, .ok b =>
      if h : a = b then .isTrue (by rw [h])
      else .isFalse (fun he => h (Except.ok.inj he))
    | .error a, .error b =>
      if h : a = b then .isTrue (by rw [h])
      else .isFalse (fun he => h (Except.error.inj he))
    | .ok _, .error _ => .isFalse (fun he => Except.noConfusion he)
    | .error _, .ok _ => .isFalse (fun he => Except.noConfusion he)

/-- Decimal digits of a natural number, most significant first. -/
def natDigits (n : Nat) : List Char :=
  Nat.toDigits 10 n

/-- Python `str` of an integer. -/
def intStr (n : ℤ) : List Char :=
  (if n < 0 then ['-'] else []) ++ natDigits n.natAbs

/-- Round the fraction `n / d` (with `d` positive) to the nearest integer,
ties to even — the rounding used by `printf`-style formatting of exactly
representable values.  Stated on an integer pair so that it evaluates by
pure integer arithmetic. -/
def roundHalfEvenFrac (n d : ℤ) : ℤ :=
  let f := Int.fdiv n d
  let twice := 2 * (n - f * d)
  if twice < d then f
  else if d < twice then f + 1
  else if f % 2 = 0 then f else f + 1

/-- Drop trailing `'0'` characters. -/
def stripTrailingZeros (l : List Char) : List Char :=
  (l.reverse.dropWhile (fun c => c = '0')).reverse

/-- Python `str` of a finite float, rendered from the exact rational with
up to 17 fractional digits, trailing zeros stripped (a finite float always
prints with at least one fractional digit, e.g. `100.0`). -/
def finRepr (q : ℚ) : List Char :=
  let n := roundHalfEvenFrac (q.num * 10 ^ (17 : ℕ)) (q.den : ℤ)
  let a := n.natAbs
  let ip := a / 10 ^ (17 : ℕ)
  let fp := a % 10 ^ (17 : ℕ)
  let d := natDigits fp
  let fps := stripTrailingZeros (List.replicate (17 - d.length) '0' ++ d)
  (if n < 0 ∨ (n = 0 ∧ q < 0) then ['-'] else []) ++
    natDigits ip ++ ['.'] ++ (if fps.isEmpty then ['0'] else fps)

/-- Python `str(...)` coercion of a cell value, as applied by
`clean_text` and `sanitize_filename`. -/
def pyStr : PyVal → List Char
  | .PStr s => s
  | .PInt n => intStr n
  | .PFloat (.fin q) => finRepr q
  | .PFloat .nan => "nan".data
  | .PFloat (.inf b) => (if b then "-inf" else "inf").data
  | .PNone => "None".data

/-- Source, app.py line 11-13: `clean_text` removes every character whose
code point is outside `\x00`-`\x7F` (the regex `[^\x00-\x7F]+` replaced by
the empty string), after `str(...)`. -/
def clean_text (v : PyVal) : List Char :=
  (pyStr v).filter (fun c => decide (c.toNat ≤ 0x7F))

/-- The nine characters removed by `sanitize_filename`
(regex character class `[\\/*?:"<>|]`). -/
def badFileChars : List Char :=
  ['\\', '/', '*', '?', ':', '"', '<', '>', '|']

/-- Source, app.py line 15-18: `sanitize_filename` removes the characters
of `badFileChars` after `str(...)` and truncates to 20 characters. -/
def sanitize_filename (v : PyVal) : List Char :=
  ((pyStr v).filter (fun c => !(badFileChars.contains c))).take 20

/-- Code points treated as whitespace by Python `str.strip()` (and by
`float(...)` when trimming its argument). -/
def pySpaceCodes : List Nat :=
  [9, 10, 11, 12, 13, 28, 29, 30, 31, 32, 0x85, 0xA0, 0x1680,
   0x2000, 0x2001, 0x2002, 0x2003, 0x2004, 0x2005, 0x2006, 0x2007,
   0x2008, 0x2009, 0x200A, 0x2028, 0x2029, 0x202F, 0x205F, 0x3000]

/-- Whether a character is Python whitespace. -/
def isPySpace (c : Char) : Bool :=
  pySpaceCodes.contains c.toNat

/-- Python `str.strip()`: drop whitespace from both ends. -/
def pyStrip (l : List Char) : List Char :=
  ((l.dropWhile isPySpace).reverse.dropWhile isPySpace).reverse

/-- ASCII decimal digit test (`\d` of the crew regex, digits of a float
literal). -/
def isAsciiDigit (c : Char) : Bool :=
  48 ≤ c.toNat && c.toNat ≤ 57

/-- The literal part of the boilerplate pattern
`Excl Happy Sweep HC\d*` removed by `extract_crew_names`. -/
def boilerplate : List Char :=
  "Excl Happy Sweep HC".data

/-- Scanner for `re.sub(r'Excl Happy Sweep HC\d*', '', s)`, with explicit
fuel so that the recursion is structural (the scanned list shrinks by at
least one character per step, so `l.length` fuel always suffices). -/
def removeBoilerplateAux : Nat → List Char → List Char
  | 0, l => l
  | _ + 1, [] => []
  | fuel + 1, c :: rest =>
    if boilerplate.isPrefixOf (c :: rest) then
      removeBoilerplateAux fuel ((List.drop boilerplate.length (c :: rest)).dropWhile isAsciiDigit)
    else
      c :: removeBoilerplateAux fuel rest

/-- Source, app.py line 22: `re.sub(r'Excl Happy Sweep HC\d*', '', s)` —
scan left to right; at each position a match (the literal followed by a
greedy run of digits) is removed and scanning resumes after it. -/
def removeBoilerplate (l : List Char) : List Char :=
  removeBoilerplateAux l.length l

/-- Python `s.split(',')`: split on every comma; a string with no comma
yields one piece, so the empty string yields `[[]]`. -/
def splitOnCommaChar : List Char → List (List Char)
  | [] => [[]]
  | c :: rest =>
    match splitOnCommaChar rest with
    | [] => [[]]
    | h :: t => if c = ',' then [] :: h :: t else (c :: h) :: t

/-- Python `sep.join(pieces)`. -/
def joinSep (sep : List Char) : List (List Char) → List Char
  | [] => []
  | [p] => p
  | p :: q :: ps => p ++ sep ++ joinSep sep (q :: ps)

/-- The list comprehension of app.py line 23: strip each comma-separated
piece of the boilerplate-free text and keep the truthy (nonempty) ones. -/
def crewPieces (l : List Char) : List (List Char) :=
  ((splitOnCommaChar (removeBoilerplate l)).map pyStrip).filter (fun p => !p.isEmpty)

/-- Source, app.py line 20-24: `extract_crew_names`. -/
def extract_crew_names (l : List Char) : List Char :=
  joinSep ", ".data (crewPieces l)

/-- Build the rational `n / d` for a nonzero natural denominator; wraps
`Rat.normalize`, which evaluates by integer arithmetic. -/
def qOfFrac (n : ℤ) (d : ℕ) (h : d ≠ 0) : ℚ :=
  Rat.normalize n d h

/-- Rational multiplication, computed on numerators and denominators so
that it evaluates inside the kernel. -/
def qmul (a b : ℚ) : ℚ :=
  qOfFrac (a.num * b.num) (a.den * b.den) (Nat.mul_ne_zero a.den_nz b.den_nz)

/-- Rational addition, computed on numerators and denominators so that it
evaluates inside the kernel. -/
def qadd (a b : ℚ) : ℚ :=
  qOfFrac (a.num * b.den + b.num * a.den) (a.den * b.den)
    (Nat.mul_ne_zero a.den_nz b.den_nz)

theorem qOfFrac_eq (n : ℤ) (d : ℕ) (h : d ≠ 0) :
    qOfFrac n d h = (n : ℚ) / (d : ℚ) := by
  rw [qOfFrac, show Rat.normalize n d h = mkRat n d by
    simp [mkRat, h]]
  rw [Rat.mkRat_eq_divInt, Rat.divInt_eq_div]
  norm_num

theorem qmul_eq (a b : ℚ) : qmul a b = a * b := by
  rw [qmul, qOfFrac]
  rw [show Rat.normalize (a.num * b.num) (a.den * b.den)
        (Nat.mul_ne_zero a.den_nz b.den_nz)
      = mkRat (a.num * b.num) (a.den * b.den) by
    simp [mkRat, Nat.mul_ne_zero a.den_nz b.den_nz]]
  rw [Rat.mkRat_eq_divInt]
  push_cast
  rw [← Rat.divInt_mul_divInt a.num b.num (by exact_mod_cast a.den_nz)
        (by exact_mod_cast b.den_nz)]
  rw [Rat.num_divInt_den, Rat.num_divInt_den]

theorem qadd_eq (a b : ℚ) : qadd a b = a + b := by
  rw [qadd, qOfFrac]
  rw [show Rat.normalize (a.num * b.den + b.num * a.den) (a.den * b.den)
        (Nat.mul_ne_zero a.den_nz b.den_nz)
      = mkRat (a.num * b.den + b.num * a.den) (a.den * b.den) by
    simp [mkRat, Nat.mul_ne_zero a.den_nz b.den_nz]]
  rw [Rat.mkRat_eq_divInt]
  push_cast
  rw [← Rat.divInt_add_divInt a.num b.num (by exact_mod_cast a.den_nz)
        (by exact_mod_cast b.den_nz)]
  rw [Rat.num_divInt_den, Rat.num_divInt_den]

/-- Python float multiplication on the model values (`nan` propagates,
infinities follow IEEE sign rules, `inf * 0 = nan`). -/
def pfMul : PyFloat → PyFloat → PyFloat
  | .nan, _ => .nan
  | _, .nan => .nan
  | .fin a, .fin b => .fin (qmul a b)
  | .inf s, .fin b => if b = 0 then .nan else .inf (if 0 < b then s else !s)
  | .fin a, .inf s => if a = 0 then .nan else .inf (if 0 < a then s else !s)
  | .inf s, .inf t => .inf (s != t)

/-- Python float addition on the model values. -/
def pfAdd : PyFloat → PyFloat → PyFloat
  | .nan, _ => .nan
  | _, .nan => .nan
  | .fin a, .fin b => .fin (qadd a b)
  | .inf s, .fin _ => .inf s
  | .fin _, .inf s => .inf s
  | .inf s, .inf t => if s = t then .inf s else .nan

/-- Python `f"{x:.2f}"`: fixed two-decimal formatting. -/
def fmt2 : PyFloat → List Char
  | .fin q =>
    let n := roundHalfEvenFrac (q.num * 100) (q.den : ℤ)
    let a := n.natAbs
    (if n < 0 ∨ (n = 0 ∧ q < 0) then ['-'] else []) ++
      natDigits (a / 100) ++
      ['.', Char.ofNat (48 + a % 100 / 10), Char.ofNat (48 + a % 100 % 10)]
  | .nan => "nan".data
  | .inf b => (if b then "-inf" else "inf").data

/-- One maximal run of decimal digits with single underscores allowed
between digits (Python numeric-literal lexing); returns the accumulated
value, the number of digits consumed, and the rest of the input.  An
underscore not followed by a digit is left unconsumed, which makes the
enclosing parse fail on its full-consumption check. -/
def digitsLoop (acc cnt : Nat) : List Char → Nat × Nat × List Char
  | '_' :: d :: r2 =>
    if isAsciiDigit d then digitsLoop (acc * 10 + (d.toNat - 48)) (cnt + 1) r2
    else (acc, cnt, '_' :: d :: r2)
  | c :: rest =>
    if isAsciiDigit c then
      digitsLoop (acc * 10 + (c.toNat - 48)) (cnt + 1) rest
    else (acc, cnt, c :: rest)
  | [] => (acc, cnt, [])

/-- A digit group of a Python float literal: at least one leading digit. -/
def parseDigitGroup (l : List Char) : Option (Nat × Nat × List Char) :=
  match l with
  | c :: rest =>
    if isAsciiDigit c then some (digitsLoop (c.toNat - 48) 1 rest) else none
  | [] => none

/-- The finite-number grammar of Python `float(str)` after sign removal:
`digits [. digits] [exponent]`, `. digits [exponent]`, requiring at least
one mantissa digit and full consumption of the input.  The value is
returned as an exact rational, `neg` applying the already-parsed sign. -/
def parseNumber (l : List Char) (neg : Bool) : Option ℚ :=
  let s : ℤ := if neg then -1 else 1
  let p1 := match parseDigitGroup l with
    | some x => x
    | none => (0, 0, l)
  let p2 := match p1.2.2 with
    | '.' :: r =>
      (match parseDigitGroup r with
       | some x => x
       | none => (0, 0, r))
    | _ => (0, 0, p1.2.2)
  if p1.2.1 + p2.2.1 = 0 then none
  else
    let mant : ℤ := (p1.1 : ℤ) * 10 ^ p2.2.1 + (p2.1 : ℤ)
    match p2.2.2 with
    | [] => some (qOfFrac (s * mant) (10 ^ p2.2.1) (pow_ne_zero _ (by decide)))
    | e :: r3 =>
      if e = 'e' ∨ e = 'E' then
        let se := match r3 with
          | '+' :: r => (false, r)
          | '-' :: r => (true, r)
          | r => (false, r)
        match parseDigitGroup se.2 with
        | some (ev, _, r5) =>
          if r5.isEmpty then
            some (if se.1 then
                    qOfFrac (s * mant) (10 ^ (p2.2.1 + ev)) (pow_ne_zero _ (by decide))
                  else
                    qOfFrac (s * mant * 10 ^ ev) (10 ^ p2.2.1) (pow_ne_zero _ (by decide)))
          else none
        | none => none
      else none

/-- The body of Python `float(str)` after stripping whitespace and an
optional sign: a case-insensitive `inf`, `infinity` or `nan`, or a finite
literal. -/
def parseUnsignedFloat (l : List Char) (neg : Bool) : Option PyFloat :=
  let low := l.map Char.toLower
  if low = "inf".data ∨ low = "infinity".data then some (.inf neg)
  else if low = "nan".data then some .nan
  else (parseNumber l neg).map .fin

/-- Python `float(str)`: strip whitespace, then an optional sign, then the
float body; `none` models `ValueError`. -/
def parsePyFloat (s : List Char) : Option PyFloat :=
  match pyStrip s with
  | '+' :: r => parseUnsignedFloat r false
  | '-' :: r => parseUnsignedFloat r true
  | r => parseUnsignedFloat r false

/-- Python `float(value)` on a cell value: strings are parsed (`ValueError`
on failure), ints and floats convert, `None` raises `TypeError`. -/
def pyFloatOf (v : PyVal) : Except PyErr PyFloat :=
  match v with
  | .PStr s =>
    match parsePyFloat s with
    | some f => .ok f
    | none => .error .ValueError
  | .PInt n => .ok (.fin (n : ℚ))
  | .PFloat f => .ok f
  | .PNone => .error .TypeError

/-- Source, app.py line 114-117: `try: booking_amount = float(...)` with
`except ValueError: booking_amount = 0.0` — only `ValueError` is caught;
any other exception escapes. -/
def booking_amount_of (v : PyVal) : Except PyErr PyFloat :=
  match pyFloatOf v with
  | .ok f => .ok f
  | .error .ValueError => .ok (.fin 0)
  | .error e => .error e

/-- The literal `0.05` of app.py line 119, as an exact rational. -/
def vatRate : ℚ :=
  qOfFrac 5 100 (by decide)

/-- Source, app.py line 114-120: the financial calculation — booking
amount (zero on unparsable text), `vat = booking_amount * 0.05`,
`total = booking_amount + vat`. -/
def compute (v : PyVal) : Except PyErr (PyFloat × PyFloat × PyFloat) :=
  match booking_amount_of v with
  | .ok a => .ok (a, pfMul a (.fin vatRate), pfAdd a (pfMul a (.fin vatRate)))
  | .error e => .error e

/-- A pandas row as read by `generate_invoice`: an association list from
column names to cell values (lookup takes the first match). -/
abbrev Row := List (List Char × PyVal)

/-- Bracket access `row[key]` on a pandas row: `KeyError` when the column
is absent. -/
def rowGet (row : Row) (k : List Char) : Except PyErr PyVal :=
  match row.find? (fun e => e.1 == k) with
  | some e => .ok e.2
  | none => .error (.KeyError k)

/-- Defaulting access `row.get(key, default)` on a pandas row. -/
def rowGetD (row : Row) (k : List Char) (d : PyVal) : PyVal :=
  match row.find? (fun e => e.1 == k) with
  | some e => e.2
  | none => d

/-- Whether a column is present in a row. -/
def hasKey (row : Row) (k : List Char) : Bool :=
  match rowGet row k with
  | .ok _ => true
  | .error _ => false

def referenceNoKey : List Char := "Reference No".data
def clientNameKey : List Char := "Client Name".data
def clientIdKey : List Char := "Client ID".data
def clientAddressKey : List Char := "Client Address".data
def clientRegionKey : List Char := "Client Region".data
def startingAtKey : List Char := "Starting At".data
def endingAtKey : List Char := "Ending At".data
def appointmentAttributesKey : List Char := "Appointment Attributes".data
def assignedCrewKey : List Char := "Assigned Crew Member".data
def bookingAmountKey : List Char := "Booking Amount".data
def paymentMethodKey : List Char := "Payment Method".data

/-- The default `'N/A'` used by the `.get` accesses of app.py. -/
def naText : PyVal := .PStr "N/A".data

/-- The dynamic content of one rendered invoice: every piece of text that
`generate_invoice` places on the page, plus the embedded logo bytes.  The
static layout (colors, fonts, fixed labels, company block) is identical on
every render and is not part of the state. -/
structure InvoiceDoc where
  logo : List Nat
  invoiceNumber : List Char
  dateLine : List Char
  clientName : List Char
  clientId : List Char
  clientAddress : List Char
  clientRegion : List Char
  serviceStart : List Char
  serviceEnd : List Char
  appointmentAttributes : List Char
  assignedCrew : List Char
  bookingAmountText : List Char
  vatText : List Char
  totalText : List Char
  paymentMethod : List Char
deriving DecidableEq

/-- The filename of app.py line 141: `f"Invoice_{reference_no}.pdf"`. -/
def invoiceFileName (ref : List Char) : List Char :=
  "Invoice_".data ++ ref ++ ".pdf".data

/-- Source, app.py line 28-142: `generate_invoice(row, logo_bytes)`.
Field accesses happen in source order: `row['Reference No']` (line 70),
`row.get('Starting At', 'N/A')` (line 72), `row['Client Name']` (81),
`row['Client ID']` (82), `row['Client Address']` (83),
`row['Client Region']` (84), `row['Starting At']` (93),
`row['Ending At']` (94), `row.get('Appointment Attributes', 'N/A')` (97),
`row.get('Assigned Crew Member', 'N/A')` (98), `row['Booking Amount']`
(115, inside a `try` that catches only `ValueError`), and
`row['Payment Method']` (127).  A `KeyError` from any bracket access
aborts the render. -/
def generate_invoice (row : Row) (logo_bytes : List Nat) :
    Except PyErr (List Char × InvoiceDoc) := do
  let refv ← rowGet row referenceNoKey
  let reference_no := sanitize_filename refv
  let dateLine := clean_text (rowGetD row startingAtKey naText)
  let namev ← rowGet row clientNameKey
  let idv ← rowGet row clientIdKey
  let addrv ← rowGet row clientAddressKey
  let regv ← rowGet row clientRegionKey
  let startv ← rowGet row startingAtKey
  let endv ← rowGet row endingAtKey
  let attrsText := clean_text (rowGetD row appointmentAttributesKey naText)
  let crewText := extract_crew_names (clean_text (rowGetD row assignedCrewKey naText))
  let amountv ← rowGet row bookingAmountKey
  let fin ← compute amountv
  let payv ← rowGet row paymentMethodKey
  pure (invoiceFileName reference_no,
    { logo := logo_bytes
      invoiceNumber := clean_text (.PStr reference_no)
      dateLine := dateLine
      clientName := clean_text namev
      clientId := clean_text idv
      clientAddress := clean_text addrv
      clientRegion := clean_text regv
      serviceStart := clean_text startv
      serviceEnd := clean_text endv
      appointmentAttributes := attrsText
      assignedCrew := crewText
      bookingAmountText := fmt2 fin.1
      vatText := fmt2 fin.2.1
      totalText := fmt2 fin.2.2
      paymentMethod := clean_text payv })

/-- Source, app.py line 176-188: the generation loop — one
`generate_invoice` call per row, in input order, collecting
(filename, document) pairs; an exception during one render aborts the
whole run (fail-fast). -/
def generateBatch (rows : List Row) (logo : List Nat) :
    Except PyErr (List (List Char × InvoiceDoc)) :=
  match rows with
  | [] => .ok []
  | r :: rest =>
    match generate_invoice r logo with
    | .error e => .error e
    | .ok p =>
      match generateBatch rest logo with
      | .error e => .error e
      | .ok ps => .ok (p :: ps)

/-- Source, app.py line 195-198: the zip assembly — one `writestr` call
per (filename, bytes) pair, appending entries in batch order. -/
def buildArchive (batch : List (List Char × InvoiceDoc)) :
    List (List Char × InvoiceDoc) :=
  batch.foldl (fun acc e => acc ++ [e]) []

/-- Source, app.py line 194: `if st.session_state.invoices:` — the
download section (zip construction and download buttons) runs only when
the batch is nonempty; an empty batch offers nothing. -/
def offerDownload (batch : List (List Char × InvoiceDoc)) :
    Option (List (List Char × InvoiceDoc)) :=
  if batch.isEmpty then none else some (buildArchive batch)

/-! Helper lemmas about the embedded string operations. -/

theorem dropWhile_dropWhile (p : Char → Bool) (l : List Char) :
    (l.dropWhile p).dropWhile p = l.dropWhile p := by
  induction l with
  | nil => rfl
  | cons c t ih =>
    by_cases h : p c
    · simp [List.dropWhile_cons, h, ih]
    · simp [List.dropWhile_cons, h]

theorem head?_dropWhile_false {p : Char → Bool} {c : Char} :
    ∀ {l : List Char}, (l.dropWhile p).head? = some c → p c = false := by
  intro l
  induction l with
  | nil => intro h; cases h
  | cons a t ih =>
    intro h
    by_cases ha : p a
    · rw [List.dropWhile_cons, if_pos ha] at h
      exact ih h
    · rw [List.dropWhile_cons, if_neg ha] at h
      cases h
      exact Bool.eq_false_iff.mpr ha

theorem dropWhile_eq_self_of_head {p : Char → Bool} {l : List Char}
    (h : ∀ c, l.head? = some c → p c = false) : l.dropWhile p = l := by
  cases l with
  | nil => rfl
  | cons a t =>
    rw [List.dropWhile_cons, if_neg]
    rw [h a rfl]
    simp

theorem getLast?_append_right {t y : List Char} (h : y ≠ []) :
    (t ++ y).getLast? = y.getLast? := by
  rw [← List.head?_reverse, ← List.head?_reverse, List.reverse_append]
  cases hy : y.reverse with
  | nil => exact absurd (by simpa using hy) h
  | cons a b => rfl

theorem head?_append_left {a b : List Char} (h : a ≠ []) :
    (a ++ b).head? = a.head? := by
  cases a with
  | nil => exact absurd rfl h
  | cons x t => rfl

theorem pyStrip_subset (l : List Char) : pyStrip l ⊆ l := by
  intro c hc
  rw [pyStrip, List.mem_reverse] at hc
  have h1 := ( List.dropWhile_suffix isPySpace ).sublist.subset hc
  rw [List.mem_reverse] at h1
  exact ( List.dropWhile_suffix isPySpace ).sublist.subset h1

theorem head?_pyStrip {l : List Char} {c : Char}
    (h : (pyStrip l).head? = some c) : isPySpace c = false := by
  rw [pyStrip, List.head?_reverse] at h
  obtain ⟨t, ht⟩ := List.dropWhile_suffix (l := (l.dropWhile isPySpace).reverse) isPySpace
  by_cases hy : (l.dropWhile isPySpace).reverse.dropWhile isPySpace = []
  · rw [hy] at h
    cases h
  · have hy' : ((l.dropWhile isPySpace).reverse).getLast? = some c := by
      rw [← ht, getLast?_append_right hy]
      exact h
    rw [List.getLast?_reverse] at hy'
    exact head?_dropWhile_false hy'

theorem getLast?_pyStrip {l : List Char} {c : Char}
    (h : (pyStrip l).getLast? = some c) : isPySpace c = false := by
  rw [pyStrip, List.getLast?_reverse] at h
  exact head?_dropWhile_false h

theorem pyStrip_idem (l : List Char) : pyStrip (pyStrip l) = pyStrip l := by
  have h1 : (pyStrip l).dropWhile isPySpace = pyStrip l :=
    dropWhile_eq_self_of_head (fun c hc => head?_pyStrip hc)
  have h2 : (pyStrip l).reverse.dropWhile isPySpace = (pyStrip l).reverse := by
    apply dropWhile_eq_self_of_head
    intro c hc
    rw [List.head?_reverse] at hc
    exact getLast?_pyStrip hc
  rw [pyStrip, h1, h2, List.reverse_reverse]

theorem splitOnCommaChar_ne_nil (l : List Char) : splitOnCommaChar l ≠ [] := by
  induction l with
  | nil => simp [splitOnCommaChar]
  | cons c rest ih =>
    rw [splitOnCommaChar]
    cases h : splitOnCommaChar rest with
    | nil => simp
    | cons a b =>
      by_cases hc : c = ',' <;> simp [hc]

theorem splitOnCommaChar_no_comma :
    ∀ (l : List Char) (p : List Char), p ∈ splitOnCommaChar l → ',' ∉ p := by
  intro l
  induction l with
  | nil =>
    intro p hp
    simp [splitOnCommaChar] at hp
    simp [hp]
  | cons c rest ih =>
    intro p hp
    cases h : splitOnCommaChar rest with
    | nil => exact absurd h (splitOnCommaChar_ne_nil rest)
    | cons a b =>
      have hp' : p ∈ (if c = ',' then [] :: a :: b else (c :: a) :: b) := by
        rw [← h]
        simpa [splitOnCommaChar, h] using hp
      by_cases hc : c = ','
      · rw [if_pos hc] at hp'
        rcases List.mem_cons.mp hp' with h1 | h1
        · simp [h1]
        · exact ih p (h ▸ h1)
      · rw [if_neg hc] at hp'
        rcases List.mem_cons.mp hp' with h1 | h1
        · subst h1
          intro hmem
          rcases List.mem_cons.mp hmem with h2 | h2
          · exact hc h2.symm
          · exact ih a (h ▸ List.mem_cons_self a b) h2
        · exact ih p (h ▸ List.mem_cons.mpr (Or.inr h1))

theorem crewPieces_spec {l p : List Char} (hp : p ∈ crewPieces l) :
    p ≠ [] ∧ pyStrip p = p ∧ ',' ∉ p := by
  rw [crewPieces, List.mem_filter] at hp
  obtain ⟨hmem, hne⟩ := hp
  obtain ⟨q, hq, hpq⟩ := List.mem_map.mp hmem
  refine ⟨by simpa using hne, ?_, ?_⟩
  · rw [← hpq, pyStrip_idem]
  · intro hin
    exact splitOnCommaChar_no_comma _ q hq (pyStrip_subset q (hpq ▸ hin))

theorem joinSep_ne_nil {sep p : List Char} {ps : List (List Char)}
    (hp : p ≠ []) : joinSep sep (p :: ps) ≠ [] := by
  cases ps with
  | nil => simpa [joinSep] using hp
  | cons q rest =>
    rw [joinSep]
    simp [hp]

theorem head?_joinSep {sep p : List Char} {ps : List (List Char)}
    (hp : p ≠ []) : (joinSep sep (p :: ps)).head? = p.head? := by
  cases ps with
  | nil => rfl
  | cons q rest =>
    rw [joinSep, List.append_assoc, head?_append_left hp]

theorem getLast?_joinSep {sep : List Char} {c : Char} :
    ∀ {ps : List (List Char)}, (∀ p ∈ ps, p ≠ []) →
      (joinSep sep ps).getLast? = some c → ∃ p ∈ ps, p.getLast? = some c := by
  intro ps
  induction ps with
  | nil => intro _ h; cases h
  | cons p rest ih =>
    intro hne h
    cases rest with
    | nil => exact ⟨p, List.mem_cons_self p [], h⟩
    | cons q rest2 =>
      rw [joinSep] at h
      have hq : q ≠ [] := hne q (List.mem_cons.mpr (Or.inr (List.mem_cons_self q rest2)))
      have hj : joinSep sep (q :: rest2) ≠ [] := joinSep_ne_nil hq
      rw [getLast?_append_right hj] at h
      obtain ⟨r, hr, hrc⟩ :=
        ih (fun x hx => hne x (List.mem_cons.mpr (Or.inr hx))) h
      exact ⟨r, List.mem_cons.mpr (Or.inr hr), hrc⟩

theorem buildArchive_eq (batch : List (List Char × InvoiceDoc)) :
    buildArchive batch = batch := by
  rw [buildArchive]
  suffices h : ∀ acc, batch.foldl (fun acc e => acc ++ [e]) acc = acc ++ batch by
    simpa using h []
  induction batch with
  | nil => intro acc; simp
  | cons e rest ih =>
    intro acc
    rw [List.foldl_cons, ih]
    simp

/-! Structural lemmas about row access and the renderer. -/

theorem rowGet_error_eq {row : Row} {k : List Char} {e : PyErr}
    (h : rowGet row k = .error e) : e = .KeyError k := by
  rw [rowGet] at h
  cases hf : row.find? (fun x => x.1 == k) with
  | some x => rw [hf] at h; cases h
  | none => rw [hf] at h; cases h; rfl

theorem hasKey_false_rowGet {row : Row} {k : List Char}
    (h : hasKey row k = false) : rowGet row k = .error (.KeyError k) := by
  rw [hasKey] at h
  cases he : rowGet row k with
  | ok v => rw [he] at h; cases h
  | error e => rw [rowGet_error_eq he]

theorem hasKey_true_rowGet {row : Row} {k : List Char}
    (h : hasKey row k = true) : ∃ v, rowGet row k = .ok v := by
  rw [hasKey] at h
  cases he : rowGet row k with
  | ok v => exact ⟨v, rfl⟩
  | error e => rw [he] at h; cases h

theorem generate_invoice_ok {row : Row} {logo : List Nat} {fn : List Char} {doc : InvoiceDoc}
    (h : generate_invoice row logo = .ok (fn, doc)) :
    ∃ rv, rowGet row referenceNoKey = .ok rv ∧ fn = invoiceFileName (sanitize_filename rv) := by
  unfold generate_invoice at h
  simp only [Bind.bind, Except.bind] at h
  cases h1 : rowGet row referenceNoKey with
  | error e => rw [h1] at h; simp at h
  | ok rv =>
  rw [h1] at h
  simp only [] at h
  refine ⟨rv, rfl, ?_⟩
  cases h2 : rowGet row clientNameKey with
  | error e => rw [h2] at h; simp at h
  | ok v2 =>
  rw [h2] at h
  simp only [] at h
  cases h3 : rowGet row clientIdKey with
  | error e => rw [h3] at h; simp at h
  | ok v3 =>
  rw [h3] at h
  simp only [] at h
  cases h4 : rowGet row clientAddressKey with
  | error e => rw [h4] at h; simp at h
  | ok v4 =>
  rw [h4] at h
  simp only [] at h
  cases h5 : rowGet row clientRegionKey with
  | error e => rw [h5] at h; simp at h
  | ok v5 =>
  rw [h5] at h
  simp only [] at h
  cases h6 : rowGet row startingAtKey with
  | error e => rw [h6] at h; simp at h
  | ok v6 =>
  rw [h6] at h
  simp only [] at h
  cases h7 : rowGet row endingAtKey with
  | error e => rw [h7] at h; simp at h
  | ok v7 =>
  rw [h7] at h
  simp only [] at h
  cases h8 : rowGet row bookingAmountKey with
  | error e => rw [h8] at h; simp at h
  | ok v8 =>
  rw [h8] at h
  simp only [] at h
  cases h9 : compute v8 with
  | error e => rw [h9] at h; simp at h
  | ok v9 =>
  rw [h9] at h
  simp only [] at h
  cases h10 : rowGet row paymentMethodKey with
  | error e => rw [h10] at h; simp at h
  | ok v10 =>
  rw [h10] at h
  simp only [pure, Except.pure, Except.ok.injEq, Prod.mk.injEq] at h
  exact h.1.symm

theorem generate_invoice_missing_client_name {row : Row} {logo : List Nat} {rv : PyVal}
    (h1 : rowGet row referenceNoKey = .ok rv)
    (h2 : rowGet row clientNameKey = .error (.KeyError clientNameKey)) :
    generate_invoice row logo = .error (.KeyError clientNameKey) := by
  unfold generate_invoice
  simp only [Bind.bind, Except.bind]
  rw [h1]
  simp only []
  rw [h2]

theorem generateBatch_ok_spec {logo : List Nat} :
    ∀ (rows : List Row) (batch : List (List Char × InvoiceDoc)),
      generateBatch rows logo = .ok batch →
      batch.length = rows.length ∧
      ∀ i (hi : i < rows.length) (hb : i < batch.length),
        generate_invoice (rows.get ⟨i, hi⟩) logo = .ok (batch.get ⟨i, hb⟩) := by
  intro rows
  induction rows with
  | nil =>
    intro batch h
    rw [generateBatch] at h
    cases h
    exact ⟨rfl, fun i hi _ => absurd hi (Nat.not_lt_zero i)⟩
  | cons r rest ih =>
    intro batch h
    rw [generateBatch] at h
    cases hg : generate_invoice r logo with
    | error e => rw [hg] at h; cases h
    | ok p =>
    rw [hg] at h
    simp only [] at h
    cases hb : generateBatch rest logo with
    | error e => rw [hb] at h; cases h
    | ok ps =>
    rw [hb] at h
    simp only [] at h
    cases h
    obtain ⟨hlen, hidx⟩ := ih ps hb
    refine ⟨by simp [hlen], ?_⟩
    intro i hi hbi
    cases i with
    | zero => exact hg
    | succ j =>
      exact hidx j (Nat.lt_of_succ_lt_succ hi) (Nat.lt_of_succ_lt_succ hbi)

/-- The sanitized reference number of a row (empty when the column is
absent), used to state the filename-distinctness hypothesis. -/
def sanitizedRefOf (row : Row) : List Char :=
  match rowGet row referenceNoKey with
  | .ok v => sanitize_filename v
  | .error _ => []

/-! Concrete fixtures used to evaluate the embedded pipeline. -/

/-- Placeholder logo bytes (a PNG header prefix). -/
def logo0 : List Nat := [137, 80, 78, 71]

/-- A complete source record. -/
def rowA : Row :=
  [(referenceNoKey, .PStr "INV-001".data),
   (clientNameKey, .PStr "Alice Smith".data),
   (clientIdKey, .PStr "C-17".data),
   (clientAddressKey, .PStr "12 Marina Walk".data),
   (clientRegionKey, .PStr "Dubai".data),
   (startingAtKey, .PStr "2024-01-01 09:00".data),
   (endingAtKey, .PStr "2024-01-01 11:00".data),
   (appointmentAttributesKey, .PStr "Deep clean".data),
   (assignedCrewKey, .PStr "John Doe, Excl Happy Sweep HC3, Jane Roe".data),
   (bookingAmountKey, .PStr "200".data),
   (paymentMethodKey, .PStr "Card".data)]

/-- A second complete source record with a distinct reference number. -/
def rowB : Row :=
  [(referenceNoKey, .PStr "INV-002".data),
   (clientNameKey, .PStr "Bob Jones".data),
   (clientIdKey, .PStr "C-18".data),
   (clientAddressKey, .PStr "7 Palm Ave".data),
   (clientRegionKey, .PStr "Sharjah".data),
   (startingAtKey, .PStr "2024-01-02 10:00".data),
   (endingAtKey, .PStr "2024-01-02 12:00".data),
   (appointmentAttributesKey, .PStr "Standard".data),
   (assignedCrewKey, .PStr "Mary Major".data),
   (bookingAmountKey, .PStr "50.5".data),
   (paymentMethodKey, .PStr "Cash".data)]

/-- `rowA` with the `'Client Name'` column removed. -/
def rowNoClientName : Row :=
  [(referenceNoKey, .PStr "INV-001".data),
   (clientIdKey, .PStr "C-17".data),
   (clientAddressKey, .PStr "12 Marina Walk".data),
   (clientRegionKey, .PStr "Dubai".data),
   (startingAtKey, .PStr "2024-01-01 09:00".data),
   (endingAtKey, .PStr "2024-01-01 11:00".data),
   (appointmentAttributesKey, .PStr "Deep clean".data),
   (assignedCrewKey, .PStr "John Doe".data),
   (bookingAmountKey, .PStr "200".data),
   (paymentMethodKey, .PStr "Card".data)]

/-- `rowA` with a `None` value in the `'Booking Amount'` column. -/
def rowNoneAmount : Row :=
  [(referenceNoKey, .PStr "INV-001".data),
   (clientNameKey, .PStr "Alice Smith".data),
   (clientIdKey, .PStr "C-17".data),
   (clientAddressKey, .PStr "12 Marina Walk".data),
   (clientRegionKey, .PStr "Dubai".data),
   (startingAtKey, .PStr "2024-01-01 09:00".data),
   (endingAtKey, .PStr "2024-01-01 11:00".data),
   (appointmentAttributesKey, .PStr "Deep clean".data),
   (assignedCrewKey, .PStr "John Doe".data),
   (bookingAmountKey, .PNone),
   (paymentMethodKey, .PStr "Card".data)]

/-- The two-record input table of the end-to-end scenario. -/
def rows2 : List Row := [rowA, rowB]

/-- The batch generated from `rows2` (evaluated form). -/
def batch2 : List (List Char × InvoiceDoc) :=
  (generateBatch rows2 logo0).toOption.getD []

/-- A reference number containing a non-ASCII letter and a control
character, neither of which is among the nine filename-unsafe
characters. -/
def c10Text : List Char := "Café".data ++ [Char.ofNat 7]

/-- `rowA` with `c10Text` as its reference number. -/
def rowCafe : Row :=
  [(referenceNoKey, .PStr c10Text),
   (clientNameKey, .PStr "Alice Smith".data),
   (clientIdKey, .PStr "C-17".data),
   (clientAddressKey, .PStr "12 Marina Walk".data),
   (clientRegionKey, .PStr "Dubai".data),
   (startingAtKey, .PStr "2024-01-01 09:00".data),
   (endingAtKey, .PStr "2024-01-01 11:00".data),
   (appointmentAttributesKey, .PStr "Deep clean".data),
   (assignedCrewKey, .PStr "John Doe".data),
   (bookingAmountKey, .PStr "200".data),
   (paymentMethodKey, .PStr "Card".data)]

/-- The filename produced for `rowCafe`. -/
def c10Filename : List Char :=
  match generate_invoice rowCafe logo0 with
  | .ok p => p.1
  | .error _ => []

/-- The invoice-number body text produced for `rowCafe`. -/
def c10InvoiceNumber : List Char :=
  match generate_invoice rowCafe logo0 with
  | .ok p => p.2.invoiceNumber
  | .error _ => []

/-- Printable 7-bit (ASCII) range: codes 0x20 through 0x7E. -/
def printable7 (c : Char) : Bool :=
  32 ≤ c.toNat && c.toNat ≤ 126

/-! Claim theorems. -/

/-- C1 counterexample: a record that lacks the `'Client Name'` column does
not produce a document — `generate_invoice` raises `KeyError`. -/
theorem c1_counterexample :
    generate_invoice rowNoClientName logo0 = .error (.KeyError clientNameKey) := by
  decide

/-- C1 (amended): only the fields read via `.get` (`'Starting At'` for the
date line, `'Appointment Attributes'`, `'Assigned Crew Member'`) tolerate
absence, defaulting to `'N/A'`; a record missing the bracket-accessed
`'Client Name'` column makes `generate_invoice` raise `KeyError` and
produce no document. -/
theorem c1_missing_field_raises (row : Row) (logo : List Nat)
    (h1 : hasKey row referenceNoKey = true)
    (h2 : hasKey row clientNameKey = false) :
    generate_invoice row logo = .error (.KeyError clientNameKey) := by
  obtain ⟨rv, hrv⟩ := hasKey_true_rowGet h1
  exact generate_invoice_missing_client_name hrv (hasKey_false_rowGet h2)

/-- C1 witness: the amended statement applied to a concrete record. -/
theorem c1_witness :
    hasKey rowNoClientName referenceNoKey = true ∧
    hasKey rowNoClientName clientNameKey = false ∧
    generate_invoice rowNoClientName logo0 = .error (.KeyError clientNameKey) :=
  ⟨by decide, by decide,
   c1_missing_field_raises rowNoClientName logo0 (by decide) (by decide)⟩

/-- C2 counterexample: a `None` value in `'Booking Amount'` raises
`TypeError` from `float(None)`, which the `except ValueError` handler does
not catch, and the exception propagates out of the render. -/
theorem c2_counterexample :
    pyFloatOf .PNone = .error .TypeError ∧
    booking_amount_of .PNone = .error .TypeError ∧
    generate_invoice rowNoneAmount logo0 = .error .TypeError := by
  refine ⟨rfl, rfl, by decide⟩

/-- C2 (amended): for every string value of the booking-amount field the
render never raises — an unparsable string is substituted with zero — but
only `ValueError` is caught, so a non-string, non-numeric value (e.g.
`None`) raises an uncaught `TypeError`. -/
theorem c2_string_amount_never_raises (s : List Char) :
    ∃ f, booking_amount_of (.PStr s) = .ok f ∧
      (parsePyFloat s = none → f = .fin 0) := by
  cases h : parsePyFloat s with
  | none =>
    refine ⟨.fin 0, ?_, fun _ => rfl⟩
    rw [booking_amount_of, pyFloatOf, h]
  | some f =>
    refine ⟨f, ?_, ?_⟩
    · rw [booking_amount_of, pyFloatOf, h]
    · intro hn
      cases hn

/-- C2 witness: the amended statement applied to the string `"abc"`. -/
theorem c2_witness :
    booking_amount_of (.PStr "abc".data) = .ok (.fin 0) := by
  obtain ⟨f, hf, himp⟩ := c2_string_amount_never_raises ("abc".data)
  rw [himp (by decide)] at hf
  exact hf

/-- C3: the financial computation satisfies `vat = amount * 0.05` and
`total = amount + vat`, formatted to two decimals; `compute("100")` yields
amount 100.00, vat 5.00, total 105.00, and `compute("abc")` yields all
zeros. -/
theorem c3_financial :
    compute (.PStr "100".data) = .ok (.fin 100, .fin 5, .fin 105) ∧
    fmt2 (.fin 100) = "100.00".data ∧
    fmt2 (.fin 5) = "5.00".data ∧
    fmt2 (.fin 105) = "105.00".data ∧
    compute (.PStr "abc".data) = .ok (.fin 0, .fin 0, .fin 0) ∧
    fmt2 (.fin 0) = "0.00".data ∧
    (∀ (v : PyVal) (a : ℚ) (vt t : PyFloat),
      compute v = .ok (.fin a, vt, t) →
        vt = .fin (a * (5 / 100 : ℚ)) ∧ t = .fin (a + a * (5 / 100 : ℚ))) := by
  refine ⟨by decide, by decide, by decide, by decide, by decide, by decide, ?_⟩
  intro v a vt t h
  rw [compute] at h
  cases hb : booking_amount_of v with
  | error e => rw [hb] at h; cases h
  | ok f =>
    rw [hb] at h
    simp only [Except.ok.injEq, Prod.mk.injEq] at h
    obtain ⟨hfa, hvt, ht⟩ := h
    subst hfa
    have hrate : vatRate = (5 / 100 : ℚ) := by
      rw [vatRate, qOfFrac_eq]
      norm_num
    have hv : pfMul (.fin a) (.fin vatRate) = .fin (a * (5 / 100 : ℚ)) := by
      rw [pfMul, qmul_eq, hrate]
    constructor
    · rw [← hvt, hv]
    · rw [← ht, hv, pfAdd, qadd_eq]

/-- C3 witness: the universal part of the claim applied at the concrete
input `"100"`. -/
theorem c3_witness :
    (PyFloat.fin 5 = .fin ((100 : ℚ) * (5 / 100 : ℚ))) ∧
    (PyFloat.fin 105 = .fin ((100 : ℚ) + (100 : ℚ) * (5 / 100 : ℚ))) :=
  c3_financial.2.2.2.2.2.2 (.PStr "100".data) 100 (.fin 5) (.fin 105) (by decide)

/-- C4 counterexample: `clean_text` keeps the full 7-bit range, so the
control character `\x01` — which is not in the printable range — survives
cleaning, refuting the claim that the output contains only printable
7-bit characters. -/
theorem c4_counterexample :
    clean_text (.PStr ['a', Char.ofNat 1, 'b']) = ['a', Char.ofNat 1, 'b'] ∧
    Char.ofNat 1 ∈ clean_text (.PStr ['a', Char.ofNat 1, 'b']) ∧
    printable7 (Char.ofNat 1) = false := by
  refine ⟨by decide, by decide, by decide⟩

/-- C4 (amended): for every input value — text, numeric or `None` —
`clean_text` returns a string whose characters all lie in the 7-bit range
(code points at most `0x7F`, non-printable control characters included),
and it is a total function (never throws). -/
theorem c4_clean_text_seven_bit (v : PyVal) :
    (clean_text v).all (fun c => decide (c.toNat ≤ 0x7F)) = true := by
  rw [clean_text, List.all_eq_true]
  intro x hx
  exact (List.mem_filter.mp hx).2

/-- C5: for every input value — text, numeric or `None` —
`sanitize_filename` returns a string containing none of the nine
filename-unsafe characters, of length at most 20, and it is a total
function (never throws). -/
theorem c5_sanitize_filename_safe (v : PyVal) :
    (sanitize_filename v).all (fun c => !(badFileChars.contains c)) = true ∧
    (sanitize_filename v).length ≤ 20 := by
  constructor
  · rw [sanitize_filename, List.all_eq_true]
    intro x hx
    exact (List.mem_filter.mp (List.mem_of_mem_take hx)).2
  · rw [sanitize_filename]
    exact List.length_take_le 20 _

theorem mem_of_head?_eq {l : List Char} {c : Char} (h : l.head? = some c) :
    c ∈ l := by
  cases l with
  | nil => cases h
  | cons a t =>
    have ha : a = c := by simpa using h
    exact ha ▸ List.mem_cons_self a t

theorem mem_of_getLast?_eq {l : List Char} {c : Char} (h : l.getLast? = some c) :
    c ∈ l := by
  rw [← List.head?_reverse] at h
  exact List.mem_reverse.mp (mem_of_head?_eq h)

/-- C6: `extract_crew_names` removes the boilerplate pattern, splits on
commas, trims each piece, drops empty pieces and rejoins with `", "`; the
two documented examples hold, every kept piece is nonempty, trimmed and
comma-free (so the output has no empty segments), and the output never
starts or ends with a separator character. -/
theorem c6_extract_crew :
    extract_crew_names "John Doe, Excl Happy Sweep HC3, Jane Roe".data
      = "John Doe, Jane Roe".data ∧
    extract_crew_names "Excl Happy Sweep HC, , ".data = [] ∧
    (∀ l : List Char, extract_crew_names l = joinSep ", ".data (crewPieces l)) ∧
    (∀ (l p : List Char), p ∈ crewPieces l → p ≠ [] ∧ pyStrip p = p ∧ ',' ∉ p) ∧
    (∀ (l : List Char) (c : Char), (extract_crew_names l).head? = some c →
      isPySpace c = false ∧ c ≠ ',') ∧
    (∀ (l : List Char) (c : Char), (extract_crew_names l).getLast? = some c →
      isPySpace c = false ∧ c ≠ ',') := by
  refine ⟨by decide, by decide, fun l => rfl, fun l p hp => crewPieces_spec hp, ?_, ?_⟩
  · intro l c h
    rw [extract_crew_names] at h
    cases hps : crewPieces l with
    | nil => rw [hps] at h; cases h
    | cons p ps =>
      rw [hps] at h
      have hp := crewPieces_spec (l := l) (hps ▸ List.mem_cons_self p ps)
      rw [head?_joinSep hp.1] at h
      constructor
      · rw [← hp.2.1] at h
        exact head?_pyStrip h
      · intro hc
        exact hp.2.2 (hc ▸ mem_of_head?_eq h)
  · intro l c h
    rw [extract_crew_names] at h
    have hne : ∀ p ∈ crewPieces l, p ≠ [] := fun p hp => (crewPieces_spec hp).1
    obtain ⟨p, hpmem, hpl⟩ := getLast?_joinSep hne h
    have hp := crewPieces_spec hpmem
    constructor
    · rw [← hp.2.1] at hpl
      exact getLast?_pyStrip hpl
    · intro hc
      exact hp.2.2 (hc ▸ mem_of_getLast?_eq hpl)

/-- C6 witness: the piece facts applied to the documented example, and the
boundary facts applied to its output. -/
theorem c6_witness :
    ("John Doe".data ≠ [] ∧ pyStrip "John Doe".data = "John Doe".data ∧
      ',' ∉ "John Doe".data) ∧
    (isPySpace 'J' = false ∧ 'J' ≠ ',') :=
  ⟨c6_extract_crew.2.2.2.1 "John Doe, Excl Happy Sweep HC3, Jane Roe".data
      "John Doe".data (by decide),
   c6_extract_crew.2.2.2.2.1 "John Doe, Excl Happy Sweep HC3, Jane Roe".data
      'J' (by decide)⟩

/-- C7: the batch orchestration renders records in input order, exactly
one render per record; when every render succeeds (and the sanitized
reference numbers are distinct), the archive holds exactly one entry per
record, in batch order, and the entry for record `i` is named
`"Invoice_" + sanitize_filename(referenceNo_i) + ".pdf"`. -/
theorem c7_batch_orchestration (rows : List Row) (logo : List Nat)
    (batch : List (List Char × InvoiceDoc))
    (hok : generateBatch rows logo = .ok batch)
    (hdist : (rows.map sanitizedRefOf).Nodup) :
    batch.length = rows.length ∧
    buildArchive batch = batch ∧
    (∀ i (hi : i < rows.length) (hb : i < batch.length),
      ∃ rv, rowGet (rows.get ⟨i, hi⟩) referenceNoKey = .ok rv ∧
        (batch.get ⟨i, hb⟩).1 = invoiceFileName (sanitize_filename rv)) := by
  obtain ⟨hlen, hidx⟩ := generateBatch_ok_spec rows batch hok
  refine ⟨hlen, buildArchive_eq batch, ?_⟩
  intro i hi hb
  have hgen := hidx i hi hb
  have hgen' : generate_invoice (rows.get ⟨i, hi⟩) logo
      = .ok ((batch.get ⟨i, hb⟩).1, (batch.get ⟨i, hb⟩).2) := by
    rw [Prod.mk.eta]
    exact hgen
  exact generate_invoice_ok hgen'

/-- C7 witness: the batch property applied to a concrete two-record table
with distinct reference numbers, checking the produced filenames. -/
theorem c7_witness :
    generateBatch rows2 logo0 = .ok batch2 ∧
    (rows2.map sanitizedRefOf).Nodup ∧
    batch2.map Prod.fst
      = ["Invoice_INV-001.pdf".data, "Invoice_INV-002.pdf".data] ∧
    (batch2.length = rows2.length ∧
     buildArchive batch2 = batch2 ∧
     (∀ i (hi : i < rows2.length) (hb : i < batch2.length),
       ∃ rv, rowGet (rows2.get ⟨i, hi⟩) referenceNoKey = .ok rv ∧
         (batch2.get ⟨i, hb⟩).1 = invoiceFileName (sanitize_filename rv))) :=
  ⟨rfl, by decide, by decide,
   c7_batch_orchestration rows2 logo0 batch2 rfl (by decide)⟩

/-- C8 counterexample: with an empty batch the download section is
skipped entirely — no archive, empty or otherwise, is offered. -/
theorem c8_counterexample :
    offerDownload [] = none := rfl

/-- C8 (amended): an empty input dataset yields an empty batch and no
error, but the download stage is guarded by batch nonemptiness, so no
archive — not even an empty-but-valid one — is offered to the caller. -/
theorem c8_empty_dataset (logo : List Nat) :
    generateBatch [] logo = .ok [] ∧ offerDownload [] = none :=
  ⟨rfl, rfl⟩

/-- C10: `sanitize_filename` removes only the nine unsafe characters
before truncating to 20: the output is a subsequence of the input text
(order preserved), and characters outside the printable 7-bit range — a
non-ASCII letter and a control character in the example — survive into
the derived invoice filename, while the invoice-number body text is
additionally cleaned of non-ASCII (but not of controls). -/
theorem c10_sanitize_preserves :
    (∀ v : PyVal, sanitize_filename v
      = ((pyStr v).filter (fun c => !(badFileChars.contains c))).take 20) ∧
    (∀ v : PyVal, List.Sublist (sanitize_filename v) (pyStr v)) ∧
    sanitize_filename (.PStr c10Text) = c10Text ∧
    clean_text (.PStr c10Text) = "Caf".data ++ [Char.ofNat 7] ∧
    c10Filename = "Invoice_".data ++ c10Text ++ ".pdf".data ∧
    ('é' ∈ c10Filename) ∧
    (Char.ofNat 7 ∈ c10Filename) ∧
    c10InvoiceNumber = "Caf".data ++ [Char.ofNat 7] ∧
    ('é' ∉ c10InvoiceNumber) := by
  refine ⟨fun v => rfl, ?_, by decide, by decide, by decide, by decide, by decide,
    by decide, by decide⟩
  intro v
  exact (List.take_sublist 20 _).trans (List.filter_sublist _)
